import Mathlib

set_option maxHeartbeats 1600000

/-!
# Shallow embedding of the prompt-opt repository

This file embeds the core operations of the repository in Lean 4 and proves
properties of them:

* the scene classifier, which exists twice in the source:
  `detectScene` in `src/lib/sceneDetector.ts` (strict `>` when scanning for
  the maximal score) and `detect` in the engine package (`>=`), with slightly
  different keyword tables (the engine's `hr/interview` list is longer);
* the prompt version store (`savePromptVersion`, `listPromptVersions`,
  `getPromptByScene`, `updatePromptIndex`) from `src/lib/sceneDetector.ts`,
  modelled over an explicit directory/index state;
* the LLM client's model registry (`getModelConfig`, `generateSummary` /
  `callLLM`-`generate`), modelled with an explicit environment and an
  abstract fetch function plus a count of HTTP requests attempted;
* the logger's `getStats` over an explicit commands-directory state.

JavaScript strings are modelled as Lean `String` / `List Char`; all string
primitives used by the code (`includes`, `startsWith`, `endsWith`, the
default `Array.sort()` code-unit comparison, `Array.slice` with a negative
index) are defined below from their ECMAScript semantics.  Numbers that the
code manipulates are integers except the classifier's confidence and the
average duration, which are modelled as rationals; every comparison the code
performs on them (`maxScore > 0`, `confidence < 0.3`, `min(maxScore/3, 1)`)
is decision-equivalent between IEEE doubles and exact rationals at the
values that occur, since `m/3 ≥ 1/3 > 0.3` holds in both arithmetics.
-/

/-! ## JavaScript string primitives -/

/-- `isPrefixList needle hay`: `needle` is a prefix of `hay` (code-unit-wise). -/
def isPrefixList : List Char → List Char → Bool
  | [], _ => true
  | _ :: _, [] => false
  | a :: as, b :: bs => a == b && isPrefixList as bs

/-- `containsList needle hay`: `needle` occurs contiguously inside `hay`.
This is the semantics of `String.prototype.includes`. -/
def containsList (needle : List Char) : List Char → Bool
  | [] => needle.isEmpty
  | c :: t => isPrefixList needle (c :: t) || containsList needle t

/-- JS `content.includes(keyword)`. -/
def includes (content keyword : String) : Bool :=
  containsList keyword.data content.data

/-- JS `s.startsWith(p)`. -/
def jsStartsWith (s p : String) : Bool := isPrefixList p.data s.data

/-- JS `s.endsWith(p)`. -/
def jsEndsWith (s p : String) : Bool := isPrefixList p.data.reverse s.data.reverse

/-- Code-unit lexicographic strict order on char lists; the comparison used by
the default comparator of JS `Array.prototype.sort` on strings. -/
def jsLtL : List Char → List Char → Bool
  | [], [] => false
  | [], _ :: _ => true
  | _ :: _, [] => false
  | a :: as, b :: bs =>
    if a.val < b.val then true
    else if b.val < a.val then false
    else jsLtL as bs

/-- Insert into a `jsLtL`-ascending list, after any element it does not
strictly precede. -/
def jsSortInsert (x : String) : List String → List String
  | [] => [x]
  | y :: ys => if jsLtL x.data y.data then x :: y :: ys else y :: jsSortInsert x ys

/-- JS `Array.prototype.sort()` with the default comparator: an ascending
sort by code-unit order, modelled as insertion sort.  The lists the
repository sorts are directory listings, whose names are pairwise distinct,
so the result is determined by the comparator alone and the choice of
(stable) sorting algorithm is immaterial. -/
def jsSort : List String → List String
  | [] => []
  | x :: xs => jsSortInsert x (jsSort xs)

/-- JS `arr.slice(start)` for an arbitrary (possibly negative) integer
`start`: a negative index counts from the end, clamped at 0. -/
def jsSlice {α : Type} (l : List α) (start : Int) : List α :=
  if start < 0 then l.drop ((l.length + start).toNat)
  else l.drop start.toNat

/-! ## Scene classifier: shared pieces

Both implementations first build, for every scene, the list of its keywords
found in the content and its score (one point per keyword of the list that
occurs in the content), then scan the score map for the best scene.  An
`Entry` is one row of that scan: `(scene, score, foundKeywords)`. -/

abbrev Entry := String × Nat × List String

/-- `foundKeywords[scene]`: the keywords of the scene's list occurring in the
content, in declared order. -/
def sceneFound (content : String) (keywords : List String) : List String :=
  keywords.filter (fun k => includes content k)

/-- `scores[scene]`: one point per keyword of the list occurring in the
content. -/
def sceneScore (content : String) (keywords : List String) : Nat :=
  (sceneFound content keywords).length

/-- The classifier's running best: `maxScore`, `bestScene`, `bestKeywords`. -/
structure Best where
  maxScore : Nat
  bestScene : String
  bestKeywords : List String
deriving DecidableEq, Repr

/-- Initial values of the scan: `maxScore = 0`, `bestScene = 'other/finance'`,
`bestKeywords = []`. -/
def initBest : Best := ⟨0, "other/finance", []⟩

/-- One step of `detectScene`'s scan (`score > maxScore`). -/
def stepGT (b : Best) (e : Entry) : Best :=
  if b.maxScore < e.2.1 then ⟨e.2.1, e.1, e.2.2⟩ else b

/-- One step of the engine `detect`'s scan (`score >= maxScore`). -/
def stepGE (b : Best) (e : Entry) : Best :=
  if b.maxScore ≤ e.2.1 then ⟨e.2.1, e.1, e.2.2⟩ else b

/-- The maximal score of a scored row list. -/
def listMaxScore (l : List Entry) : Nat :=
  l.foldr (fun e m => max e.2.1 m) 0

/-- The first row attaining the maximal score. -/
def firstMaxEntry (l : List Entry) : Option Entry :=
  l.find? (fun e => listMaxScore l ≤ e.2.1)

/-- The last row attaining the maximal score. -/
def lastMaxEntry (l : List Entry) : Option Entry :=
  l.reverse.find? (fun e => listMaxScore l ≤ e.2.1)

/-- Step 3 of both classifiers:
`confidence = maxScore > 0 ? Math.min(maxScore / 3, 1) : 0.3`. -/
def confidenceOf (maxScore : Nat) : ℚ :=
  if 0 < maxScore then min ((maxScore : ℚ) / 3) 1 else 3/10

/-- The record returned by both classifiers. -/
structure DetectOutput where
  scene : String
  confidence : ℚ
  keywords : List String
  allScores : List (String × Nat)
deriving DecidableEq, Repr

/-- Projection of `allScores` at a scene key. -/
def lookupScore (o : DetectOutput) (scene : String) : Option Nat :=
  (o.allScores.find? (fun p => p.1 == scene)).map Prod.snd

/-! ## `src/lib/sceneDetector.ts` (`detectScene`, strict `>`) -/

namespace SceneDetector

/-- The scene → keywords table of `src/lib/sceneDetector.ts`. -/
def SCENE_KEYWORDS : List (String × List String) := [
  ("product/weekly", ["产品周会", "上周", "本周", "需求", "排期", "上线", "迭代", "sprint", "feature", "roadmap"]),
  ("product/review", ["需求评审", "PRD", "评审", "Story", "用户故事", "验收标准", "优先级"]),
  ("product/launch", ["产品发布", "发布会", "新功能", "亮点", "演示", "release", "launch"]),
  ("marketing/weekly", ["营销周会", "投放", "转化", "曝光", "活动", "GMV", "业绩"]),
  ("marketing/campaign", ["策划", "方案", "创意", "目标人群", "营销活动", "campaign"]),
  ("marketing/brand", ["品牌", "定位", "差异化", "价值观", "品牌策略", "brand"]),
  ("marketing/partnership", ["合作", "洽谈", "伙伴", "渠道", "partnership"]),
  ("sales/meeting", ["销售会议", "业绩", "目标", "客户", "签约", "跟进"]),
  ("sales/negotiation", ["谈判", "报价", "合同", "让步", "签约", "价格"]),
  ("sales/channel", ["渠道", "经销商", "代理", "分销", "channel"]),
  ("strategy/meeting", ["战略", "三年规划", "愿景", "竞争", "格局", "strategy"]),
  ("strategy/management", ["管理层", "例会", "经营", "CEO", "总裁", "高管"]),
  ("strategy/review", ["复盘", "总结", "经验", "教训", "回顾", "review"]),
  ("hr/interview", ["面试", "自我介绍", "项目经历", "离职原因", "优势", "面试官"]),
  ("hr/performance", ["绩效", "考核", "KPI", "面谈", "评分"]),
  ("hr/exit", ["离职", "辞职", "退出", "面谈", "交接"]),
  ("hr/team", ["团建", "团队建设", "活动", "聚餐", "team building"]),
  ("rd/tech-review", ["技术评审", "架构", "技术方案", "可行性", "风险", "review"]),
  ("rd/planning", ["排期", "计划", "工期", "里程碑", "排期会"]),
  ("rd/incident", ["故障", "问题", "incident", "bug", "紧急", "P0", "P1"]),
  ("other/finance", ["财务", "预算", "成本", "利润", "营收", "finance"]),
  ("other/legal", ["法务", "合规", "合同", "法律", "legal", "compliance"])]

/-- Step 1 of `detectScene`: the `(scene, score, foundKeywords)` rows, in
table order. -/
def scored (content : String) : List Entry :=
  SCENE_KEYWORDS.map (fun p => (p.1, sceneScore content p.2, sceneFound content p.2))

/-- Step 2 of `detectScene`: scan `scores` for the best scene (strict `>`). -/
def pickBest (content : String) : Best :=
  (scored content).foldl stepGT initBest

/-- `detectScene` of `src/lib/sceneDetector.ts` (the `async` wrapper adds
nothing: the body is pure). -/
def detectScene (content : String) : DetectOutput :=
  let best := pickBest content
  let confidence : ℚ := confidenceOf best.maxScore
  if confidence < 3/10 then
    { scene := "product/weekly", confidence := confidence,
      keywords := (["会议"] : List String).take 5,
      allScores := (scored content).map (fun e => (e.1, e.2.1)) }
  else
    { scene := best.bestScene, confidence := confidence,
      keywords := best.bestKeywords.take 5,
      allScores := (scored content).map (fun e => (e.1, e.2.1)) }

/-- `getAllScenes` of `src/lib/sceneDetector.ts`. -/
def getAllScenes : List String := SCENE_KEYWORDS.map Prod.fst

end SceneDetector

/-! ## Engine `detect` (`packages/engine`, `>=`) -/

namespace Engine

/-- The scene → keywords table of the engine's scene detector; it differs
from the other table in the `hr/interview` row. -/
def SCENE_KEYWORDS : List (String × List String) := [
  ("product/weekly", ["产品周会", "上周", "本周", "需求", "排期", "上线", "迭代", "sprint", "feature", "roadmap"]),
  ("product/review", ["需求评审", "PRD", "评审", "Story", "用户故事", "验收标准", "优先级"]),
  ("product/launch", ["产品发布", "发布会", "新功能", "亮点", "演示", "release", "launch"]),
  ("marketing/weekly", ["营销周会", "投放", "转化", "曝光", "活动", "GMV", "业绩"]),
  ("marketing/campaign", ["策划", "方案", "创意", "目标人群", "营销活动", "campaign"]),
  ("marketing/brand", ["品牌", "定位", "差异化", "价值观", "品牌策略", "brand"]),
  ("marketing/partnership", ["合作", "洽谈", "伙伴", "渠道", "partnership"]),
  ("sales/meeting", ["销售会议", "业绩", "目标", "客户", "签约", "跟进"]),
  ("sales/negotiation", ["谈判", "报价", "合同", "让步", "签约", "价格"]),
  ("sales/channel", ["渠道", "经销商", "代理", "分销", "channel"]),
  ("strategy/meeting", ["战略", "三年规划", "愿景", "竞争", "格局", "strategy"]),
  ("strategy/management", ["管理层", "例会", "经营", "CEO", "总裁", "高管"]),
  ("strategy/review", ["复盘", "总结", "经验", "教训", "回顾", "review"]),
  ("hr/interview", ["面试", "自我介绍", "项目经历", "离职", "优势", "面试官", "薪资", "到岗", "薪酬", "工资", "期望", "岗位", "入职", "offer", "录用", "招聘", "求职者", "工作经验", "技能特长", "职业规划", "待遇", "薪水", "奖金", "福利", "级别", "应聘", "职位", "复试", "终面", "笔试", "初试", "人力", "沟通", "加班", "双休", "十三薪", "股票", "期权"]),
  ("hr/performance", ["绩效", "考核", "KPI", "面谈", "评分"]),
  ("hr/exit", ["离职", "辞职", "退出", "面谈", "交接"]),
  ("hr/team", ["团建", "团队建设", "活动", "聚餐", "team building"]),
  ("rd/tech-review", ["技术评审", "架构", "技术方案", "可行性", "风险", "review"]),
  ("rd/planning", ["排期", "计划", "工期", "里程碑", "排期会"]),
  ("rd/incident", ["故障", "问题", "incident", "bug", "紧急", "P0", "P1"]),
  ("other/finance", ["财务", "预算", "成本", "利润", "营收", "finance"]),
  ("other/legal", ["法务", "合规", "合同", "法律", "legal", "compliance"])]

/-- The engine's `(scene, score, foundKeywords)` rows, in table order. -/
def scored (content : String) : List Entry :=
  SCENE_KEYWORDS.map (fun p => (p.1, sceneScore content p.2, sceneFound content p.2))

/-- The engine's scan for the best scene (`>=`). -/
def pickBest (content : String) : Best :=
  (scored content).foldl stepGE initBest

/-- `detect` of the engine package (input destructured to its `content`). -/
def detect (content : String) : DetectOutput :=
  let best := pickBest content
  let confidence : ℚ := confidenceOf best.maxScore
  if confidence < 3/10 then
    { scene := "product/weekly", confidence := confidence,
      keywords := (["会议"] : List String).take 5,
      allScores := (scored content).map (fun e => (e.1, e.2.1)) }
  else
    { scene := best.bestScene, confidence := confidence,
      keywords := best.bestKeywords.take 5,
      allScores := (scored content).map (fun e => (e.1, e.2.1)) }

/-- `getAllScenes` of the engine package. -/
def getAllScenes : List String := SCENE_KEYWORDS.map Prod.fst

end Engine

/-! ## Prompt version store (`src/lib/sceneDetector.ts`, storage half)

The store works on one scene's directory (`prompts/<scene>/`) and on the
scene's record inside `prompts/_meta/index.json`.  Both are modelled
explicitly: the directory is `none` when it does not exist, else the list of
its files as `(name, content)` pairs in creation order; the index record is
`none` when `index.json` has no entry for the scene. -/

namespace Storage

/-- One entry of the index's `versions` array
(`{id: "v<N>", created_at, note}`). -/
structure VersionMeta where
  id : String
  created_at : String
  note : String
deriving DecidableEq, Repr

/-- The index record of one scene: `{versions, current_version}`. -/
structure IndexRecord where
  versions : List VersionMeta
  current_version : Option String
deriving DecidableEq, Repr

/-- The state touched by the version store for one fixed scene. -/
structure SceneState where
  dir : Option (List (String × String))
  indexRec : Option IndexRecord
deriving DecidableEq, Repr

/-- The scene directory's files; a missing directory reads as empty (the
source `mkdir`s it before writing and `listPromptVersions` returns `[]` for
it). -/
def filesOf (st : SceneState) : List (String × String) :=
  match st.dir with
  | none => []
  | some fs => fs

/-- The id strings of the scene's index record, `[]` when the record is
absent (matching `updatePromptIndex`, which initialises an absent record to
`{versions: [], current_version: null}`). -/
def indexVersionIds (st : SceneState) : List String :=
  match st.indexRec with
  | none => []
  | some r => r.versions.map VersionMeta.id

/-- The `current_version` of the scene's index record, `none` when the
record is absent. -/
def indexCurrent (st : SceneState) : Option String :=
  match st.indexRec with
  | none => none
  | some r => r.current_version

/-- `fs.writeFileSync`: replace the content if the name already exists, else
add the file at the end of the directory. -/
def writeFile (files : List (String × String)) (name content : String) :
    List (String × String) :=
  if files.any (fun p => p.1 == name) then
    files.map (fun p => if p.1 == name then (name, content) else p)
  else files ++ [(name, content)]

/-- `fs.readFileSync` (`none` when the file is absent). -/
def readFile (files : List (String × String)) (name : String) : Option String :=
  (files.find? (fun p => p.1 == name)).map Prod.snd

/-- The filter both `listPromptVersions` and `getPromptByScene` apply to the
directory listing: `f.startsWith('v') && f.endsWith('.md')`. -/
def matchesVersionFile (f : String) : Bool :=
  jsStartsWith f "v" && jsEndsWith f ".md"

/-- The version-file names of the scene directory, in listing order (before
the descending sort applied by `listPromptVersions`). -/
def versionFiles (st : SceneState) : List String :=
  match st.dir with
  | none => []
  | some files => (files.map Prod.fst).filter matchesVersionFile

/-- `listPromptVersions`: `[]` when the directory is missing, else the
version-file names sorted descending.  The source sorts records
`{version, path, modified}` with `b.version.localeCompare(a.version)`; only
the names are modelled, with the code-unit order (the two orders agree on
these ASCII names), and only the length of the result is consumed by
`savePromptVersion`. -/
def listPromptVersions (st : SceneState) : List String :=
  (jsSort (versionFiles st)).reverse

/-- The id string of version number `n`, `"v<n>"` (`` `v${version}` ``). -/
def versionId (n : Nat) : String := "v" ++ Nat.repr n

/-- The file name of version number `n`, `"v<n>.md"` (`` `v${version}.md` ``). -/
def versionFileName (n : Nat) : String := versionId n ++ ".md"

/-- `["v1.md", ..., "vk.md"]`. -/
def versionFileNames (k : Nat) : List String :=
  (List.range k).map (fun i => versionFileName (i + 1))

/-- `["v1", ..., "vk"]`. -/
def versionIds (k : Nat) : List String :=
  (List.range k).map (fun i => versionId (i + 1))

/-- `savePromptVersion scene content note` at clock value `now`: creates the
directory when missing, computes `nextVersion` as the number of existing
versions plus one, writes `v<nextVersion>.md`, and runs `updatePromptIndex`
(append `{id, created_at, note}` to `versions`, set `current_version`).
Returns the new state together with the version number. -/
def savePromptVersion (st : SceneState) (content note now : String) :
    SceneState × Nat :=
  let files := filesOf st
  let nextVersion := (listPromptVersions st).length + 1
  let files' := writeFile files (versionFileName nextVersion) content
  let r : IndexRecord := match st.indexRec with | none => ⟨[], none⟩ | some r => r
  let r' : IndexRecord :=
    { versions := r.versions ++ [⟨versionId nextVersion, now, note⟩],
      current_version := some (versionId nextVersion) }
  (⟨some files', some r'⟩, nextVersion)

/-- `getPromptByScene scene version?`: resolves and returns a file name (the
source returns the file's path).  With an explicit version it requires
`v<version>.md`; otherwise it prefers `default.md`, then the
lexicographically last `v*.md` (`sort().reverse()[0]`). -/
def getPromptByScene (st : SceneState) (version : Option String) :
    Except String String :=
  match st.dir with
  | none => .error "场景目录不存在"
  | some files =>
    match version with
    | some v =>
      if files.any (fun p => p.1 == "v" ++ v ++ ".md") then .ok ("v" ++ v ++ ".md")
      else .error ("提示词版本不存在: v" ++ v)
    | none =>
      if files.any (fun p => p.1 == "default.md") then .ok "default.md"
      else
        match (jsSort ((files.map Prod.fst).filter matchesVersionFile)).reverse with
        | f :: _ => .ok f
        | [] => .error "没有提示词文件"

/-- `savePromptVersion` called once per element of `saves`, each element
carrying `(content, note, now)`. -/
def saveAll (st : SceneState) (saves : List (String × String × String)) :
    SceneState :=
  saves.foldl (fun s a => (savePromptVersion s a.1 a.2.1 a.2.2).1) st

end Storage

/-! ## LLM clients: model registry and the pre-HTTP failure path

Both clients (`src`'s `llmClient.ts` and the engine's `llmClient.js`) keep
the same three-entry registry and look a model key up before doing anything
else.  The network is abstracted into a `fetch` function standing for the
one HTTP exchange a call performs, and each operation returns the number of
HTTP requests it attempted alongside its result, so that "fails before any
HTTP request" is expressible. -/

namespace LlmClient

/-- A registry entry. -/
structure ModelConfig where
  name : String
  provider : String
  apiKeyEnv : String
  endpoint : String
  modelName : String
deriving DecidableEq, Repr

/-- The `MODELS` registry (identical in both clients). -/
def MODELS : List (String × ModelConfig) := [
  ("qwen-max", ⟨"QWEN MAX", "aliyun", "DASHSCOPE_API_KEY",
    "https://dashscope.aliyuncs.com/compatible-mode/v1/chat/completions", "qwen-max"⟩),
  ("deepseek-v3", ⟨"DeepSeek V3", "deepseek", "DEEPSEEK_API_KEY",
    "https://api.deepseek.com/v1/chat/completions", "deepseek-chat"⟩),
  ("doubao", ⟨"豆包 1.8", "douyin", "DOUBAO_API_KEY",
    "https://ark.cn-beijing.volces.com/api/v3/chat/completions", "doubao-pro-32k"⟩)]

/-- `getModelConfig` of `src`'s llmClient (Chinese-language message listing
`Object.keys(MODELS).join(', ')`). -/
def getModelConfig (modelKey : String) : Except String ModelConfig :=
  match MODELS.find? (fun p => p.1 == modelKey) with
  | some p => .ok p.2
  | none => .error ("不支持的模型: " ++ modelKey ++ ". 支持的模型: "
      ++ String.intercalate ", " (MODELS.map Prod.fst))

/-- The data of the one chat-completion HTTP request a call assembles. -/
structure HttpRequest where
  endpoint : String
  apiKey : String
  model : String
  systemContent : String
  userContent : String
deriving DecidableEq, Repr

/-- `generateSummary data prompt model`: model lookup, then the
`process.env` credential check (JS falsiness: unset or empty string), then
the single `fetch`.  The second component counts HTTP requests attempted. -/
def generateSummary (env : String → Option String)
    (fetch : HttpRequest → Except String String)
    (data prompt model : String) : Except String String × Nat :=
  match getModelConfig model with
  | .error e => (.error e, 0)
  | .ok config =>
    let apiKey := (env config.apiKeyEnv).getD ""
    if apiKey = "" then (.error ("未设置 API Key: " ++ config.apiKeyEnv), 0)
    else (fetch ⟨config.endpoint, apiKey, config.modelName, prompt, data⟩, 1)

end LlmClient

namespace EngineLlm

/-- The engine's `MODELS` registry, identical to the other client's. -/
def MODELS : List (String × LlmClient.ModelConfig) := LlmClient.MODELS

/-- `getModelConfig` of the engine's llmClient (English-language message
listing `Object.keys(MODELS).join(', ')`). -/
def getModelConfig (modelKey : String) : Except String LlmClient.ModelConfig :=
  match MODELS.find? (fun p => p.1 == modelKey) with
  | some p => .ok p.2
  | none => .error ("Unsupported model: " ++ modelKey ++ ". Supported: "
      ++ String.intercalate ", " (MODELS.map Prod.fst))

/-- The engine's `callLLM messages model options`: model lookup, credential
check, then the single `fetch`. -/
def callLLM (env : String → Option String)
    (fetch : LlmClient.HttpRequest → Except String String)
    (systemContent userContent model : String) : Except String String × Nat :=
  match getModelConfig model with
  | .error e => (.error e, 0)
  | .ok config =>
    let apiKey := (env config.apiKeyEnv).getD ""
    if apiKey = "" then (.error ("API Key not set: " ++ config.apiKeyEnv), 0)
    else (fetch ⟨config.endpoint, apiKey, config.modelName, systemContent, userContent⟩, 1)

/-- The engine's `generate {data, prompt, model}`: builds the two-message
chat and delegates to `callLLM`. -/
def generate (env : String → Option String)
    (fetch : LlmClient.HttpRequest → Except String String)
    (data prompt model : String) : Except String String × Nat :=
  callLLM env fetch prompt data model

end EngineLlm

/-! ## Logger (`getStats`) -/

namespace Logger

/-- `status ∈ {success, error, pending}`. -/
inductive EntryStatus
  | success
  | error
  | pending
deriving DecidableEq, Repr

/-- The fields of a parsed log line that `getStats` consumes. -/
structure LogEntry where
  command : String
  status : EntryStatus
  duration : Option Int
deriving DecidableEq, Repr

/-- The record `getStats` returns. -/
structure LogStats where
  totalCommands : Nat
  successCount : Nat
  errorCount : Nat
  avgDuration : Int
deriving DecidableEq, Repr

/-- JS `Math.round`. -/
def jsRound (q : ℚ) : Int := ⌊q + 1/2⌋

/-- `content.split('\n').filter(Boolean)`. -/
def splitLines (content : String) : List String :=
  (content.split (fun c => c == '\n')).filter (fun s => s ≠ "")

/-- `Logger.getStats command? days` over the `logs/commands` directory state
(`none` when the directory does not exist, else its files as
`(name, content)` in listing order) and an abstract `parse` standing for
`JSON.parse` of one line (`none` when the surrounding `try` catches).  The
source filters to `.jsonl` files, keeps the last `days` of them
(`slice(-days)`), and tallies entries, skipping those that fail the
`command` filter; a falsy (absent or zero) `duration` adds nothing. -/
def getStats (commandsDir : Option (List (String × String)))
    (parse : String → Option LogEntry)
    (command : Option String) (days : Int) : LogStats :=
  match commandsDir with
  | none => ⟨0, 0, 0, 0⟩
  | some allFiles =>
    let files := jsSlice (allFiles.filter (fun f => jsEndsWith f.1 ".jsonl")) (-days)
    let entries := files.flatMap (fun f => (splitLines f.2).filterMap parse)
    let kept := match command with
      | none => entries
      | some c => entries.filter (fun e => e.command == c)
    let totalDuration : Int := kept.foldl (fun acc e =>
      match e.duration with
      | some d => if d ≠ 0 then acc + d else acc
      | none => acc) 0
    { totalCommands := kept.length,
      successCount := (kept.filter (fun e => e.status == .success)).length,
      errorCount := (kept.filter (fun e => e.status == .error)).length,
      avgDuration := if 0 < kept.length
        then jsRound ((totalDuration : ℚ) / (kept.length : ℚ)) else 0 }

end Logger

/-! ## Classifier: basic lemmas -/

theorem confidenceOf_zero : confidenceOf 0 = 3/10 := rfl

theorem confidenceOf_lb (m : Nat) : 3/10 ≤ confidenceOf m := by
  unfold confidenceOf
  split
  · next h =>
    have h1 : (1 : ℚ) ≤ (m : ℚ) := by exact_mod_cast h
    apply le_min
    · have : (1 : ℚ)/3 ≤ (m : ℚ)/3 := by linarith
      linarith
    · norm_num
  · exact le_refl _

theorem confidenceOf_le_one (m : Nat) : confidenceOf m ≤ 1 := by
  unfold confidenceOf
  split
  · exact min_le_right _ _
  · norm_num

theorem confidenceOf_nonneg (m : Nat) : 0 ≤ confidenceOf m := by
  have := confidenceOf_lb m
  have h : (0 : ℚ) ≤ 3/10 := by norm_num
  linarith

theorem confidenceOf_third_le (m : Nat) (h : 0 < m) : 1/3 ≤ confidenceOf m := by
  unfold confidenceOf
  rw [if_pos h]
  have h1 : (1 : ℚ) ≤ (m : ℚ) := by exact_mod_cast h
  apply le_min
  · linarith
  · norm_num

/-- Because the confidence is never below `0.3`, the low-confidence override
branch of `detectScene` is never taken. -/
theorem detectScene_eq (content : String) :
    SceneDetector.detectScene content =
      { scene := (SceneDetector.pickBest content).bestScene,
        confidence := confidenceOf (SceneDetector.pickBest content).maxScore,
        keywords := (SceneDetector.pickBest content).bestKeywords.take 5,
        allScores := (SceneDetector.scored content).map (fun e => (e.1, e.2.1)) } := by
  unfold SceneDetector.detectScene
  rw [if_neg (not_lt.2 (confidenceOf_lb _))]

/-- Same for the engine's `detect`. -/
theorem detect_eq (content : String) :
    Engine.detect content =
      { scene := (Engine.pickBest content).bestScene,
        confidence := confidenceOf (Engine.pickBest content).maxScore,
        keywords := (Engine.pickBest content).bestKeywords.take 5,
        allScores := (Engine.scored content).map (fun e => (e.1, e.2.1)) } := by
  unfold Engine.detect
  rw [if_neg (not_lt.2 (confidenceOf_lb _))]

theorem detectScene_scene (content : String) :
    (SceneDetector.detectScene content).scene =
      (SceneDetector.pickBest content).bestScene := by
  rw [detectScene_eq]

theorem detectScene_confidence (content : String) :
    (SceneDetector.detectScene content).confidence =
      confidenceOf (SceneDetector.pickBest content).maxScore := by
  rw [detectScene_eq]

theorem detectScene_keywords (content : String) :
    (SceneDetector.detectScene content).keywords =
      (SceneDetector.pickBest content).bestKeywords.take 5 := by
  rw [detectScene_eq]

theorem detectScene_allScores (content : String) :
    (SceneDetector.detectScene content).allScores =
      (SceneDetector.scored content).map (fun e => (e.1, e.2.1)) := by
  rw [detectScene_eq]

theorem detect_scene (content : String) :
    (Engine.detect content).scene = (Engine.pickBest content).bestScene := by
  rw [detect_eq]

theorem detect_confidence (content : String) :
    (Engine.detect content).confidence =
      confidenceOf (Engine.pickBest content).maxScore := by
  rw [detect_eq]

theorem detect_keywords (content : String) :
    (Engine.detect content).keywords =
      (Engine.pickBest content).bestKeywords.take 5 := by
  rw [detect_eq]

theorem detect_allScores (content : String) :
    (Engine.detect content).allScores =
      (Engine.scored content).map (fun e => (e.1, e.2.1)) := by
  rw [detect_eq]

/-! ## Classifier: the two scan folds

`detectScene` scans the score map with strict `>` and so keeps the first
scene attaining the maximal score; the engine's `detect` scans with `>=`
and keeps the last one.  The two lemmas below characterise the folds. -/

theorem listMaxScore_cons (e : Entry) (t : List Entry) :
    listMaxScore (e :: t) = max e.2.1 (listMaxScore t) := rfl

theorem le_listMaxScore_of_mem {l : List Entry} {e : Entry} (h : e ∈ l) :
    e.2.1 ≤ listMaxScore l := by
  induction l with
  | nil => cases h
  | cons a t ih =>
    rcases List.mem_cons.1 h with rfl | h
    · exact le_max_left _ _
    · exact le_trans (ih h) (le_max_right _ _)

theorem listMaxScore_le_iff {l : List Entry} {n : Nat} :
    listMaxScore l ≤ n ↔ ∀ e ∈ l, e.2.1 ≤ n := by
  induction l with
  | nil => simp [listMaxScore]
  | cons a t ih =>
    rw [listMaxScore_cons, max_le_iff, ih]
    constructor
    · rintro ⟨h1, h2⟩ e he
      rcases List.mem_cons.1 he with rfl | he
      · exact h1
      · exact h2 e he
    · intro h
      exact ⟨h a (List.mem_cons_self a t), fun e he => h e (List.mem_cons_of_mem a he)⟩

theorem foldl_stepGT_of_le {l : List Entry} {b : Best}
    (h : ∀ e ∈ l, e.2.1 ≤ b.maxScore) : l.foldl stepGT b = b := by
  induction l with
  | nil => rfl
  | cons a t ih =>
    have ha : stepGT b a = b := by
      unfold stepGT
      rw [if_neg (not_lt.2 (h a (List.mem_cons_self a t)))]
    rw [List.foldl_cons, ha]
    exact ih (fun e he => h e (List.mem_cons_of_mem a he))

theorem foldl_stepGE_of_lt {l : List Entry} {b : Best}
    (h : ∀ e ∈ l, e.2.1 < b.maxScore) : l.foldl stepGE b = b := by
  induction l with
  | nil => rfl
  | cons a t ih =>
    have ha : stepGE b a = b := by
      unfold stepGE
      rw [if_neg (not_le.2 (h a (List.mem_cons_self a t)))]
    rw [List.foldl_cons, ha]
    exact ih (fun e he => h e (List.mem_cons_of_mem a he))

/-- A strict-`>` scan started below the maximum ends on the FIRST row
attaining the maximal score. -/
theorem foldl_stepGT_firstMax :
    ∀ (l : List Entry) (b : Best), b.maxScore < listMaxScore l →
    ∃ e, l.find? (fun e => listMaxScore l ≤ e.2.1) = some e ∧
      l.foldl stepGT b = ⟨e.2.1, e.1, e.2.2⟩ := by
  intro l
  induction l with
  | nil => exact fun b h => absurd h (Nat.not_lt_zero _)
  | cons a t ih =>
    intro b h
    by_cases hpa : listMaxScore (a :: t) ≤ a.2.1
    · refine ⟨a, List.find?_cons_of_pos _ (by simp [hpa]), ?_⟩
      have hstep : stepGT b a = ⟨a.2.1, a.1, a.2.2⟩ := by
        unfold stepGT
        rw [if_pos (lt_of_lt_of_le h hpa)]
      rw [List.foldl_cons, hstep]
      exact foldl_stepGT_of_le (fun e he =>
        le_trans (le_listMaxScore_of_mem (List.mem_cons_of_mem a he)) hpa)
    · push_neg at hpa
      have hat : a.2.1 ≤ listMaxScore t := by
        rcases le_total a.2.1 (listMaxScore t) with h' | h'
        · exact h'
        · exfalso
          rw [listMaxScore_cons, max_eq_left h'] at hpa
          exact lt_irrefl _ hpa
      have hM : listMaxScore (a :: t) = listMaxScore t := by
        rw [listMaxScore_cons, max_eq_right hat]
      have hb' : (stepGT b a).maxScore < listMaxScore t := by
        unfold stepGT
        split
        · exact hM ▸ hpa
        · exact hM ▸ h
      obtain ⟨e, hfind, hfold⟩ := ih (stepGT b a) hb'
      refine ⟨e, ?_, by rw [List.foldl_cons]; exact hfold⟩
      rw [List.find?_cons_of_neg _ (by simpa using not_le.2 (hM ▸ hpa))]
      simpa [hM] using hfind

/-- A `>=` scan that gets at least one chance to update ends on the LAST row
attaining the maximal score. -/
theorem foldl_stepGE_lastMax :
    ∀ (l : List Entry) (b : Best), (∃ e ∈ l, b.maxScore ≤ e.2.1) →
    ∃ e, l.reverse.find? (fun e => listMaxScore l ≤ e.2.1) = some e ∧
      l.foldl stepGE b = ⟨e.2.1, e.1, e.2.2⟩ := by
  intro l
  induction l with
  | nil => rintro b ⟨x, hx, -⟩; cases hx
  | cons a t ih =>
    rintro b ⟨x, hx, hbx⟩
    by_cases hba : b.maxScore ≤ a.2.1
    · have hstep : stepGE b a = ⟨a.2.1, a.1, a.2.2⟩ := by
        unfold stepGE
        rw [if_pos hba]
      by_cases hex : ∃ y ∈ t, a.2.1 ≤ y.2.1
      · obtain ⟨y, hy, hay⟩ := hex
        have hMt : a.2.1 ≤ listMaxScore t := le_trans hay (le_listMaxScore_of_mem hy)
        have hM : listMaxScore (a :: t) = listMaxScore t := by
          rw [listMaxScore_cons, max_eq_right hMt]
        obtain ⟨e, hfind, hfold⟩ := ih ⟨a.2.1, a.1, a.2.2⟩ ⟨y, hy, hay⟩
        refine ⟨e, ?_, by rw [List.foldl_cons, hstep]; exact hfold⟩
        rw [List.reverse_cons, List.find?_append]
        simp only [hM]
        rw [hfind]
        rfl
      · push_neg at hex
        have hMt : listMaxScore t ≤ a.2.1 :=
          listMaxScore_le_iff.2 (fun y hy => le_of_lt (hex y hy))
        have hM : listMaxScore (a :: t) = a.2.1 := by
          rw [listMaxScore_cons, max_eq_left hMt]
        refine ⟨a, ?_, ?_⟩
        · rw [List.reverse_cons, List.find?_append]
          have hnone :
              t.reverse.find? (fun e => decide (listMaxScore (a :: t) ≤ e.2.1)) = none := by
            rw [List.find?_eq_none]
            intro y hy
            simp only [decide_eq_true_eq, hM]
            exact not_le.2 (hex y (List.mem_reverse.1 hy))
          rw [hnone]
          simp [List.find?, hM]
        · rw [List.foldl_cons, hstep]
          exact foldl_stepGE_of_lt (fun y hy => hex y hy)
    · push_neg at hba
      have hstep : stepGE b a = b := by
        unfold stepGE
        rw [if_neg (not_le.2 hba)]
      have hxt : x ∈ t := by
        rcases List.mem_cons.1 hx with rfl | hxt
        · exact absurd hbx (not_le.2 hba)
        · exact hxt
      obtain ⟨e, hfind, hfold⟩ := ih b ⟨x, hxt, hbx⟩
      have hM : listMaxScore (a :: t) = listMaxScore t := by
        have : a.2.1 ≤ listMaxScore t :=
          le_trans (le_of_lt (lt_of_lt_of_le hba hbx)) (le_listMaxScore_of_mem hxt)
        rw [listMaxScore_cons, max_eq_right this]
      refine ⟨e, ?_, by rw [List.foldl_cons, hstep]; exact hfold⟩
      rw [List.reverse_cons, List.find?_append]
      simp only [hM]
      rw [hfind]
      rfl

/-- Whatever a scan built from update-or-keep steps returns, its
`bestKeywords` is the initial one or the found-keyword list of one of the
rows. -/
theorem foldl_best_keywords (step : Best → Entry → Best)
    (hstep : ∀ b e, step b e = b ∨ step b e = ⟨e.2.1, e.1, e.2.2⟩) :
    ∀ (l : List Entry) (b : Best),
      (l.foldl step b).bestKeywords = b.bestKeywords ∨
      ∃ e ∈ l, (l.foldl step b).bestKeywords = e.2.2 := by
  intro l
  induction l with
  | nil => exact fun b => Or.inl rfl
  | cons a t ih =>
    intro b
    rw [List.foldl_cons]
    rcases hstep b a with h2 | h2 <;> rw [h2]
    · rcases ih b with h | ⟨e, he, h⟩
      · exact Or.inl h
      · exact Or.inr ⟨e, List.mem_cons_of_mem a he, h⟩
    · rcases ih ⟨a.2.1, a.1, a.2.2⟩ with h | ⟨e, he, h⟩
      · exact Or.inr ⟨a, List.mem_cons_self a t, h⟩
      · exact Or.inr ⟨e, List.mem_cons_of_mem a he, h⟩

/-- Every keyword `detectScene`'s scan retains is a declared keyword of some
scene of its table. -/
theorem mem_bestKeywords_sceneDetector {content k : String}
    (h : k ∈ (SceneDetector.pickBest content).bestKeywords) :
    ∃ p ∈ SceneDetector.SCENE_KEYWORDS, k ∈ p.2 := by
  unfold SceneDetector.pickBest at h
  rcases foldl_best_keywords stepGT
      (fun b e => by unfold stepGT; split <;> [exact Or.inr rfl; exact Or.inl rfl])
      (SceneDetector.scored content) initBest with h1 | ⟨e, he, h1⟩
  · rw [h1] at h
    cases h
  · rw [h1] at h
    unfold SceneDetector.scored at he
    obtain ⟨p, hp, rfl⟩ := List.mem_map.1 he
    exact ⟨p, hp, (List.mem_filter.1 h).1⟩

/-- Every keyword the engine scan retains is a declared keyword of some
scene of its table. -/
theorem mem_bestKeywords_engine {content k : String}
    (h : k ∈ (Engine.pickBest content).bestKeywords) :
    ∃ p ∈ Engine.SCENE_KEYWORDS, k ∈ p.2 := by
  unfold Engine.pickBest at h
  rcases foldl_best_keywords stepGE
      (fun b e => by unfold stepGE; split <;> [exact Or.inr rfl; exact Or.inl rfl])
      (Engine.scored content) initBest with h1 | ⟨e, he, h1⟩
  · rw [h1] at h
    cases h
  · rw [h1] at h
    unfold Engine.scored at he
    obtain ⟨p, hp, rfl⟩ := List.mem_map.1 he
    exact ⟨p, hp, (List.mem_filter.1 h).1⟩

/-! ## String lemmas: occurrence is preserved by appending text -/

theorem isPrefixList_append {n h : List Char} (x : List Char)
    (hp : isPrefixList n h = true) : isPrefixList n (h ++ x) = true := by
  induction n generalizing h with
  | nil => rfl
  | cons a as ih =>
    cases h with
    | nil => simp [isPrefixList] at hp
    | cons b bs =>
      rw [List.cons_append]
      simp only [isPrefixList, Bool.and_eq_true] at hp ⊢
      exact ⟨hp.1, ih hp.2⟩

theorem containsList_nil_needle (h : List Char) : containsList [] h = true := by
  cases h <;> rfl

theorem containsList_append {n h : List Char} (x : List Char)
    (hc : containsList n h = true) : containsList n (h ++ x) = true := by
  induction h with
  | nil =>
    have : n = [] := by
      cases n with
      | nil => rfl
      | cons a as => simp [containsList, List.isEmpty] at hc
    subst this
    exact containsList_nil_needle x
  | cons c t ih =>
    rw [List.cons_append]
    simp only [containsList, Bool.or_eq_true] at hc ⊢
    rcases hc with hc | hc
    · exact Or.inl (by simpa [List.cons_append] using isPrefixList_append x hc)
    · exact Or.inr (ih hc)

theorem includes_append {content k : String} (extra : String)
    (h : includes content k = true) : includes (content ++ extra) k = true := by
  unfold includes at h ⊢
  rw [String.data_append]
  exact containsList_append extra.data h

/-! ## Claim theorems: the classifier -/

/-- C1, counterexample.  The empty content contains no declared keyword of
either taxonomy, yet neither classifier returns the claimed fallback
`{scene: product/weekly, keywords: ["会议"], confidence: 0}`: the confidence
is set to `0.3` (not `0`) when the maximal score is `0`, so the override
branch does not fire and the scan's default values are returned instead. -/
theorem fallback_claim_counterexample :
    (∀ p ∈ SceneDetector.SCENE_KEYWORDS, ∀ k ∈ p.2, includes "" k = false) ∧
    (∀ p ∈ Engine.SCENE_KEYWORDS, ∀ k ∈ p.2, includes "" k = false) ∧
    (SceneDetector.detectScene "").scene = "other/finance" ∧
    (SceneDetector.detectScene "").keywords = [] ∧
    (SceneDetector.detectScene "").confidence = 3/10 ∧
    (Engine.detect "").scene = "other/legal" ∧
    (Engine.detect "").keywords = [] ∧
    (Engine.detect "").confidence = 3/10 := by
  have hts : (SceneDetector.pickBest "").maxScore = 0 := by decide
  have hen : (Engine.pickBest "").maxScore = 0 := by decide
  refine ⟨by decide, by decide, ?_, ?_, ?_, ?_, ?_, ?_⟩
  · rw [detectScene_scene]
    decide
  · rw [detectScene_keywords]
    decide
  · rw [detectScene_confidence, hts]
    exact confidenceOf_zero
  · rw [detect_scene]
    decide
  · rw [detect_keywords]
    decide
  · rw [detect_confidence, hen]
    exact confidenceOf_zero

/-- C1, amended: for content containing none of the declared keywords, the
low-confidence override never fires (the confidence is `0.3`, not `0`, when
the maximal score is `0`), and each classifier returns its scan's default:
`detectScene` the initial scene `other/finance`, the engine's `detect` (which
updates on `>=`) the last table scene `other/legal`; both with confidence
exactly `0.3`, empty keyword list, and all scores `0`. -/
theorem fallback_behaviour_no_keywords :
    ∀ content : String,
      (∀ p ∈ SceneDetector.SCENE_KEYWORDS, ∀ k ∈ p.2, includes content k = false) →
      (∀ p ∈ Engine.SCENE_KEYWORDS, ∀ k ∈ p.2, includes content k = false) →
      SceneDetector.detectScene content =
        { scene := "other/finance", confidence := 3/10, keywords := [],
          allScores := SceneDetector.SCENE_KEYWORDS.map (fun p => (p.1, 0)) } ∧
      Engine.detect content =
        { scene := "other/legal", confidence := 3/10, keywords := [],
          allScores := Engine.SCENE_KEYWORDS.map (fun p => (p.1, 0)) } := by
  intro content hts hen
  have hsts : SceneDetector.scored content =
      SceneDetector.SCENE_KEYWORDS.map (fun p => (p.1, 0, [])) := by
    unfold SceneDetector.scored
    apply List.map_congr_left
    intro p hp
    have hfk : sceneFound content p.2 = [] :=
      List.filter_eq_nil_iff.2 (fun k hk => by simp [hts p hp k hk])
    simp [sceneScore, hfk]
  have hsen : Engine.scored content =
      Engine.SCENE_KEYWORDS.map (fun p => (p.1, 0, [])) := by
    unfold Engine.scored
    apply List.map_congr_left
    intro p hp
    have hfk : sceneFound content p.2 = [] :=
      List.filter_eq_nil_iff.2 (fun k hk => by simp [hen p hp k hk])
    simp [sceneScore, hfk]
  have hpts : SceneDetector.pickBest content = initBest := by
    unfold SceneDetector.pickBest
    rw [hsts]
    decide
  have hpen : Engine.pickBest content = ⟨0, "other/legal", []⟩ := by
    unfold Engine.pickBest
    rw [hsen]
    decide
  constructor
  · rw [detectScene_eq, hpts, hsts, DetectOutput.mk.injEq]
    exact ⟨rfl, confidenceOf_zero, rfl, by decide⟩
  · rw [detect_eq, hpen, hsen, DetectOutput.mk.injEq]
    exact ⟨rfl, confidenceOf_zero, rfl, by decide⟩

/-- C1 witness for the amended theorem, at the empty content. -/
theorem fallback_behaviour_no_keywords_witness :
    (∀ p ∈ SceneDetector.SCENE_KEYWORDS, ∀ k ∈ p.2, includes "" k = false) ∧
    (∀ p ∈ Engine.SCENE_KEYWORDS, ∀ k ∈ p.2, includes "" k = false) ∧
    SceneDetector.detectScene "" =
      { scene := "other/finance", confidence := 3/10, keywords := [],
        allScores := SceneDetector.SCENE_KEYWORDS.map (fun p => (p.1, 0)) } ∧
    Engine.detect "" =
      { scene := "other/legal", confidence := 3/10, keywords := [],
        allScores := Engine.SCENE_KEYWORDS.map (fun p => (p.1, 0)) } := by
  have h := fallback_behaviour_no_keywords "" (by decide) (by decide)
  exact ⟨by decide, by decide, h.1, h.2⟩

/-- C2: the computed confidence is always at least `0.3` — exactly `0.3`
when the maximal keyword score is `0` and at least `1/3` otherwise — so the
`confidence < 0.3` override branch is unreachable and neither classifier
ever returns the synthetic keyword list `["会议"]`. -/
theorem confidence_never_below_threshold :
    ∀ content : String,
      (3/10 ≤ (SceneDetector.detectScene content).confidence ∧
        ((SceneDetector.pickBest content).maxScore = 0 →
          (SceneDetector.detectScene content).confidence = 3/10) ∧
        (0 < (SceneDetector.pickBest content).maxScore →
          1/3 ≤ (SceneDetector.detectScene content).confidence) ∧
        (SceneDetector.detectScene content).keywords ≠ ["会议"]) ∧
      (3/10 ≤ (Engine.detect content).confidence ∧
        ((Engine.pickBest content).maxScore = 0 →
          (Engine.detect content).confidence = 3/10) ∧
        (0 < (Engine.pickBest content).maxScore →
          1/3 ≤ (Engine.detect content).confidence) ∧
        (Engine.detect content).keywords ≠ ["会议"]) := by
  intro content
  have hts : ∀ p ∈ SceneDetector.SCENE_KEYWORDS, "会议" ∉ p.2 := by decide
  have hen : ∀ p ∈ Engine.SCENE_KEYWORDS, "会议" ∉ p.2 := by decide
  constructor
  · refine ⟨?_, ?_, ?_, ?_⟩
    · rw [detectScene_confidence]
      exact confidenceOf_lb _
    · intro h
      rw [detectScene_confidence, h]
      exact confidenceOf_zero
    · intro h
      rw [detectScene_confidence]
      exact confidenceOf_third_le _ h
    · rw [detectScene_keywords]
      intro hEq
      have hmem : "会议" ∈ (SceneDetector.pickBest content).bestKeywords := by
        refine (List.take_sublist 5 _).subset ?_
        rw [hEq]
        exact List.mem_singleton.2 rfl
      obtain ⟨p, hp, hkp⟩ := mem_bestKeywords_sceneDetector hmem
      exact hts p hp hkp
  · refine ⟨?_, ?_, ?_, ?_⟩
    · rw [detect_confidence]
      exact confidenceOf_lb _
    · intro h
      rw [detect_confidence, h]
      exact confidenceOf_zero
    · intro h
      rw [detect_confidence]
      exact confidenceOf_third_le _ h
    · rw [detect_keywords]
      intro hEq
      have hmem : "会议" ∈ (Engine.pickBest content).bestKeywords := by
        refine (List.take_sublist 5 _).subset ?_
        rw [hEq]
        exact List.mem_singleton.2 rfl
      obtain ⟨p, hp, hkp⟩ := mem_bestKeywords_engine hmem
      exact hen p hp hkp

/-- C2 witness, at the empty content. -/
theorem confidence_never_below_threshold_witness :
    (SceneDetector.pickBest "").maxScore = 0 ∧
    (SceneDetector.detectScene "").confidence = 3/10 ∧
    (Engine.detect "").keywords ≠ ["会议"] :=
  ⟨by decide, ((confidence_never_below_threshold "").1.2.1) (by decide),
    (confidence_never_below_threshold "").2.2.2.2⟩

/-- C3: `detectScene` (strict `>`) ends its scan on the first scene
attaining the maximal keyword score, while the engine's `detect` (`>=`)
ends on the last one; on `"sprint 故障"` (one `product/weekly` keyword, one
`rd/incident` keyword, tied at score 1) the two therefore return different
scenes. -/
theorem tie_breaking_difference :
    (∀ content : String, 0 < listMaxScore (SceneDetector.scored content) →
      ∃ e, firstMaxEntry (SceneDetector.scored content) = some e ∧
        (SceneDetector.detectScene content).scene = e.1) ∧
    (∀ content : String,
      ∃ e, lastMaxEntry (Engine.scored content) = some e ∧
        (Engine.detect content).scene = e.1) ∧
    (SceneDetector.detectScene "sprint 故障").scene = "product/weekly" ∧
    (Engine.detect "sprint 故障").scene = "rd/incident" ∧
    "product/weekly" ≠ "rd/incident" := by
  refine ⟨?_, ?_, ?_, ?_, by decide⟩
  · intro content h
    obtain ⟨e, hfind, hfold⟩ :=
      foldl_stepGT_firstMax (SceneDetector.scored content) initBest h
    refine ⟨e, hfind, ?_⟩
    rw [detectScene_scene]
    unfold SceneDetector.pickBest
    rw [hfold]
  · intro content
    have hne : Engine.scored content ≠ [] := by
      unfold Engine.scored
      rw [Ne, List.map_eq_nil_iff]
      decide
    obtain ⟨x, hx⟩ := List.exists_mem_of_ne_nil _ hne
    obtain ⟨e, hfind, hfold⟩ :=
      foldl_stepGE_lastMax (Engine.scored content) initBest ⟨x, hx, Nat.zero_le _⟩
    refine ⟨e, hfind, ?_⟩
    rw [detect_scene]
    unfold Engine.pickBest
    rw [hfold]
  · rw [detectScene_scene]
    decide
  · rw [detect_scene]
    decide

/-- C3 witness, at `"sprint 故障"`. -/
theorem tie_breaking_difference_witness :
    0 < listMaxScore (SceneDetector.scored "sprint 故障") ∧
    (∃ e, firstMaxEntry (SceneDetector.scored "sprint 故障") = some e ∧
      (SceneDetector.detectScene "sprint 故障").scene = e.1) ∧
    (∃ e, lastMaxEntry (Engine.scored "sprint 故障") = some e ∧
      (Engine.detect "sprint 故障").scene = e.1) :=
  ⟨by decide, tie_breaking_difference.1 "sprint 故障" (by decide),
    tie_breaking_difference.2.1 "sprint 故障"⟩

/-- C4: for every content, both classifiers return a confidence in `[0, 1]`
and at most 5 keywords. -/
theorem detection_result_invariants :
    ∀ content : String,
      0 ≤ (SceneDetector.detectScene content).confidence ∧
      (SceneDetector.detectScene content).confidence ≤ 1 ∧
      (SceneDetector.detectScene content).keywords.length ≤ 5 ∧
      0 ≤ (Engine.detect content).confidence ∧
      (Engine.detect content).confidence ≤ 1 ∧
      (Engine.detect content).keywords.length ≤ 5 := by
  intro content
  refine ⟨?_, ?_, ?_, ?_, ?_, ?_⟩
  · rw [detectScene_confidence]
    exact confidenceOf_nonneg _
  · rw [detectScene_confidence]
    exact confidenceOf_le_one _
  · rw [detectScene_keywords, List.length_take]
    exact min_le_left _ _
  · rw [detect_confidence]
    exact confidenceOf_nonneg _
  · rw [detect_confidence]
    exact confidenceOf_le_one _
  · rw [detect_keywords, List.length_take]
    exact min_le_left _ _

theorem sceneScore_mono_append (content extra : String) (kws : List String) :
    sceneScore content kws ≤ sceneScore (content ++ extra) kws := by
  unfold sceneScore sceneFound
  exact (List.monotone_filter_right kws (fun k hk => includes_append extra hk)).length_le

theorem sceneScore_le_length (content : String) (kws : List String) :
    sceneScore content kws ≤ kws.length :=
  List.length_filter_le _ kws

/-- C5, counterexample.  Appending another occurrence of the
already-matched keyword `评审` to the content `评审 需求` raises
`allScores["product/review"]` from 1 to 2 in both implementations: the new
occurrence completes a match of the DIFFERENT keyword `需求评审`, so the
claim "adding an occurrence of an already-matched keyword does not change
that scene's score" fails at this input. -/
theorem keyword_occurrence_changes_score :
    includes "评审 需求" "评审" = true ∧
    ("product/review", ["需求评审", "PRD", "评审", "Story", "用户故事", "验收标准", "优先级"])
      ∈ SceneDetector.SCENE_KEYWORDS ∧
    ("product/review", ["需求评审", "PRD", "评审", "Story", "用户故事", "验收标准", "优先级"])
      ∈ Engine.SCENE_KEYWORDS ∧
    lookupScore (SceneDetector.detectScene "评审 需求") "product/review" = some 1 ∧
    lookupScore (SceneDetector.detectScene ("评审 需求" ++ "评审")) "product/review" = some 2 ∧
    lookupScore (Engine.detect "评审 需求") "product/review" = some 1 ∧
    lookupScore (Engine.detect ("评审 需求" ++ "评审")) "product/review" = some 2 := by
  refine ⟨by decide, by decide, by decide, ?_, ?_, ?_, ?_⟩ <;>
    unfold lookupScore
  · rw [detectScene_allScores]
    decide
  · rw [detectScene_allScores]
    decide
  · rw [detect_allScores]
    decide
  · rw [detect_allScores]
    decide

/-- C5, amended: scoring deduplicates at the keyword level — each declared
keyword contributes at most one point however often it occurs, the matched
keywords of a scene form a duplicate-free sublist of its declared list and
the score never exceeds the list's length — and appending text (in
particular another occurrence of an already-matched keyword) keeps every
matched keyword matched and can only increase the score; it is not always
unchanged, because the appended occurrence can complete a match of a
different keyword of the same scene. -/
theorem keyword_dedup_and_monotonicity :
    ∀ (content extra : String) (p : String × List String),
      p ∈ SceneDetector.SCENE_KEYWORDS ∨ p ∈ Engine.SCENE_KEYWORDS →
      (∀ k ∈ p.2, includes content k = true → includes (content ++ extra) k = true) ∧
      sceneScore content p.2 ≤ sceneScore (content ++ extra) p.2 ∧
      sceneScore content p.2 ≤ p.2.length ∧
      (sceneFound content p.2).Nodup := by
  intro content extra p hp
  have hnd : p.2.Nodup := by
    rcases hp with hp | hp
    · exact (show ∀ q ∈ SceneDetector.SCENE_KEYWORDS, q.2.Nodup by decide) p hp
    · exact (show ∀ q ∈ Engine.SCENE_KEYWORDS, q.2.Nodup by decide) p hp
  exact ⟨fun k _ hk => includes_append extra hk,
    sceneScore_mono_append content extra p.2,
    sceneScore_le_length content p.2,
    hnd.filter _⟩

/-- C5 witness for the amended theorem, at the scene `product/review`,
content `评审 需求` and appended text `评审`. -/
theorem keyword_dedup_and_monotonicity_witness :
    (("product/review", ["需求评审", "PRD", "评审", "Story", "用户故事", "验收标准", "优先级"])
        ∈ SceneDetector.SCENE_KEYWORDS ∨
      ("product/review", ["需求评审", "PRD", "评审", "Story", "用户故事", "验收标准", "优先级"])
        ∈ Engine.SCENE_KEYWORDS) ∧
    ((∀ k ∈ (("product/review",
          ["需求评审", "PRD", "评审", "Story", "用户故事", "验收标准", "优先级"]) :
          String × List String).2,
        includes "评审 需求" k = true → includes ("评审 需求" ++ "评审") k = true) ∧
      sceneScore "评审 需求" ["需求评审", "PRD", "评审", "Story", "用户故事", "验收标准", "优先级"]
        ≤ sceneScore ("评审 需求" ++ "评审")
            ["需求评审", "PRD", "评审", "Story", "用户故事", "验收标准", "优先级"] ∧
      sceneScore "评审 需求" ["需求评审", "PRD", "评审", "Story", "用户故事", "验收标准", "优先级"]
        ≤ (["需求评审", "PRD", "评审", "Story", "用户故事", "验收标准", "优先级"] :
            List String).length ∧
      (sceneFound "评审 需求"
        ["需求评审", "PRD", "评审", "Story", "用户故事", "验收标准", "优先级"]).Nodup) :=
  ⟨Or.inl (by decide),
    keyword_dedup_and_monotonicity "评审 需求" "评审" _ (Or.inl (by decide))⟩

/-- C6: on `"产品周会 本周 需求 排期"` both classifiers return scene
`product/weekly` with confidence `min(4/3, 1) = 1`, the 4 matched keywords
as a sublist of `product/weekly`'s declared list in declared order, and
`allScores["product/weekly"] = 4`. -/
theorem classify_weekly_meeting_example :
    (SceneDetector.detectScene "产品周会 本周 需求 排期").scene = "product/weekly" ∧
    (SceneDetector.detectScene "产品周会 本周 需求 排期").confidence = 1 ∧
    (SceneDetector.detectScene "产品周会 本周 需求 排期").keywords
      = ["产品周会", "本周", "需求", "排期"] ∧
    (["产品周会", "本周", "需求", "排期"] : List String).Sublist
      ["产品周会", "上周", "本周", "需求", "排期", "上线", "迭代", "sprint", "feature", "roadmap"] ∧
    ("product/weekly",
      ["产品周会", "上周", "本周", "需求", "排期", "上线", "迭代", "sprint", "feature", "roadmap"])
      ∈ SceneDetector.SCENE_KEYWORDS ∧
    lookupScore (SceneDetector.detectScene "产品周会 本周 需求 排期") "product/weekly" = some 4 ∧
    (SceneDetector.pickBest "产品周会 本周 需求 排期").maxScore = 4 ∧
    min ((4 : ℚ)/3) 1 = 1 ∧
    (Engine.detect "产品周会 本周 需求 排期").scene = "product/weekly" ∧
    (Engine.detect "产品周会 本周 需求 排期").confidence = 1 ∧
    (Engine.detect "产品周会 本周 需求 排期").keywords = ["产品周会", "本周", "需求", "排期"] ∧
    lookupScore (Engine.detect "产品周会 本周 需求 排期") "product/weekly" = some 4 := by
  have hm : (SceneDetector.pickBest "产品周会 本周 需求 排期").maxScore = 4 := by decide
  have hme : (Engine.pickBest "产品周会 本周 需求 排期").maxScore = 4 := by decide
  have hc4 : confidenceOf 4 = 1 := by
    unfold confidenceOf
    rw [if_pos (by decide : 0 < 4), min_eq_right (by push_cast; norm_num)]
  refine ⟨?_, ?_, ?_, by decide, by decide, ?_, hm, by norm_num, ?_, ?_, ?_, ?_⟩
  · rw [detectScene_scene]
    decide
  · rw [detectScene_confidence, hm, hc4]
  · rw [detectScene_keywords]
    decide
  · unfold lookupScore
    rw [detectScene_allScores]
    decide
  · rw [detect_scene]
    decide
  · rw [detect_confidence, hme, hc4]
  · rw [detect_keywords]
    decide
  · unfold lookupScore
    rw [detect_allScores]
    decide

/-! ## Prompt version store: decimal numerals

`savePromptVersion` names files `v<N>.md` through `Nat.repr`; the freshness
argument of the version-numbering proof needs that distinct version numbers
give distinct names, i.e. the injectivity of the decimal representation,
proved here by evaluating the digit string back to a number. -/

/-- Numeric value of a decimal digit character. -/
def digitVal (c : Char) : Nat := c.toNat - 48

/-- Value of a most-significant-first list of decimal digit characters. -/
def digitsVal (l : List Char) : Nat :=
  l.foldl (fun acc c => acc * 10 + digitVal c) 0

theorem toDigitsCore_acc (fuel : Nat) :
    ∀ (n : Nat) (ds : List Char),
      Nat.toDigitsCore 10 fuel n ds = Nat.toDigitsCore 10 fuel n [] ++ ds := by
  induction fuel with
  | zero => intro n ds; rfl
  | succ f ih =>
    intro n ds
    simp only [Nat.toDigitsCore]
    split
    · rfl
    · rw [ih (n / 10) [Nat.digitChar (n % 10)],
        ih (n / 10) (Nat.digitChar (n % 10) :: ds), List.append_assoc]
      rfl

theorem toDigitsCore_fuel :
    ∀ (f₁ f₂ n : Nat), n < f₁ → n < f₂ →
      Nat.toDigitsCore 10 f₁ n [] = Nat.toDigitsCore 10 f₂ n [] := by
  intro f₁
  induction f₁ with
  | zero => exact fun f₂ n h _ => absurd h (Nat.not_lt_zero _)
  | succ f ih =>
    intro f₂ n h1 h2
    cases f₂ with
    | zero => exact absurd h2 (Nat.not_lt_zero _)
    | succ g =>
      simp only [Nat.toDigitsCore]
      split
      · rfl
      · next hne =>
        rw [toDigitsCore_acc f, toDigitsCore_acc g]
        congr 1
        have hn : 0 < n := by
          rcases Nat.eq_zero_or_pos n with rfl | h
          · simp at hne
          · exact h
        have hlt : n / 10 < n := Nat.div_lt_self hn (by norm_num)
        exact ih g (n / 10) (lt_of_lt_of_le hlt (Nat.lt_succ_iff.1 h1))
          (lt_of_lt_of_le hlt (Nat.lt_succ_iff.1 h2))

theorem toDigits_eq_ite (n : Nat) :
    Nat.toDigits 10 n =
      if n < 10 then [Nat.digitChar n]
      else Nat.toDigits 10 (n / 10) ++ [Nat.digitChar (n % 10)] := by
  unfold Nat.toDigits
  simp only [Nat.toDigitsCore]
  by_cases h : n / 10 = 0
  · have hn : n < 10 := (Nat.div_eq_zero_iff (by norm_num)).1 h
    rw [if_pos h, if_pos hn, Nat.mod_eq_of_lt hn]
  · have hn : ¬ n < 10 := fun hlt => h ((Nat.div_eq_zero_iff (by norm_num)).2 hlt)
    have hn0 : 0 < n := by
      rcases Nat.eq_zero_or_pos n with rfl | h'
      · exact absurd (by norm_num) hn
      · exact h'
    rw [if_neg h, if_neg hn, toDigitsCore_acc]
    congr 1
    exact toDigitsCore_fuel n (n / 10 + 1) (n / 10)
      (lt_of_lt_of_le (Nat.div_lt_self hn0 (by norm_num))
        (Nat.le_of_lt_succ (Nat.lt_succ_self n)))
      (Nat.lt_succ_self _)

theorem digitVal_digitChar : ∀ d, d < 10 → digitVal (Nat.digitChar d) = d := by decide

theorem digitsVal_append_singleton (l : List Char) (c : Char) :
    digitsVal (l ++ [c]) = digitsVal l * 10 + digitVal c := by
  unfold digitsVal
  rw [List.foldl_append]
  rfl

theorem digitsVal_toDigits : ∀ n : Nat, digitsVal (Nat.toDigits 10 n) = n := by
  intro n
  induction n using Nat.strong_induction_on with
  | _ n ih =>
    rw [toDigits_eq_ite]
    by_cases h : n < 10
    · rw [if_pos h]
      show digitsVal [Nat.digitChar n] = n
      unfold digitsVal
      simp only [List.foldl_cons, List.foldl_nil, Nat.zero_mul, Nat.zero_add]
      exact digitVal_digitChar n h
    · rw [if_neg h, digitsVal_append_singleton]
      have hn : 0 < n := by omega
      rw [ih (n / 10) (Nat.div_lt_self hn (by norm_num)),
        digitVal_digitChar _ (Nat.mod_lt n (by norm_num))]
      have := Nat.div_add_mod n 10
      omega

theorem repr_data_inj {m n : Nat}
    (h : (Nat.repr m).data = (Nat.repr n).data) : m = n := by
  have hd : Nat.toDigits 10 m = Nat.toDigits 10 n := h
  calc m = digitsVal (Nat.toDigits 10 m) := (digitsVal_toDigits m).symm
    _ = digitsVal (Nat.toDigits 10 n) := by rw [hd]
    _ = n := digitsVal_toDigits n

/-! ## Prompt version store: lemmas -/

namespace Storage

theorem versionFileName_data (n : Nat) :
    (versionFileName n).data = 'v' :: ((Nat.repr n).data ++ ['.', 'm', 'd']) := by
  unfold versionFileName versionId
  simp [String.data_append]

theorem versionFileName_inj {m n : Nat}
    (h : versionFileName m = versionFileName n) : m = n := by
  have hd := congrArg String.data h
  rw [versionFileName_data, versionFileName_data] at hd
  injection hd with h1 h2
  exact repr_data_inj (List.append_cancel_right h2)

theorem matchesVersionFile_versionFileName (n : Nat) :
    matchesVersionFile (versionFileName n) = true := by
  unfold matchesVersionFile jsStartsWith jsEndsWith
  rw [versionFileName_data]
  simp [isPrefixList, List.reverse_append]

theorem versionFileName_ne_default (n : Nat) : versionFileName n ≠ "default.md" := by
  intro h
  have h2 := matchesVersionFile_versionFileName n
  rw [h] at h2
  exact absurd h2 (by decide)

theorem versionFileNames_succ (k : Nat) :
    versionFileNames (k + 1) = versionFileNames k ++ [versionFileName (k + 1)] := by
  unfold versionFileNames
  rw [List.range_succ, List.map_append]
  rfl

theorem versionIds_succ (k : Nat) :
    versionIds (k + 1) = versionIds k ++ [versionId (k + 1)] := by
  unfold versionIds
  rw [List.range_succ, List.map_append]
  rfl

theorem mem_versionFileNames {s : String} {k : Nat} (h : s ∈ versionFileNames k) :
    ∃ i, i < k ∧ s = versionFileName (i + 1) := by
  obtain ⟨i, hi, rfl⟩ := List.mem_map.1 h
  exact ⟨i, List.mem_range.1 hi, rfl⟩

theorem length_versionFileNames (k : Nat) : (versionFileNames k).length = k := by
  unfold versionFileNames
  rw [List.length_map, List.length_range]

theorem length_jsSortInsert (x : String) (l : List String) :
    (jsSortInsert x l).length = l.length + 1 := by
  induction l with
  | nil => rfl
  | cons y ys ih =>
    unfold jsSortInsert
    split
    · rfl
    · simp [ih]

theorem length_jsSort (l : List String) : (jsSort l).length = l.length := by
  induction l with
  | nil => rfl
  | cons x xs ih =>
    unfold jsSort
    rw [length_jsSortInsert, ih]
    rfl

theorem listPromptVersions_length (st : SceneState) :
    (listPromptVersions st).length = (versionFiles st).length := by
  unfold listPromptVersions
  rw [List.length_reverse, length_jsSort]

theorem versionFiles_eq (st : SceneState) :
    versionFiles st = ((filesOf st).map Prod.fst).filter matchesVersionFile := by
  unfold versionFiles filesOf
  cases st.dir <;> rfl

theorem writeFile_fresh {files : List (String × String)} {name : String}
    (h : name ∉ files.map Prod.fst) (content : String) :
    writeFile files name content = files ++ [(name, content)] := by
  unfold writeFile
  rw [if_neg]
  intro hany
  obtain ⟨p, hp, hpe⟩ := List.any_eq_true.1 hany
  exact h (List.mem_map.2 ⟨p, hp, by simpa using hpe⟩)

theorem fresh_name {st : SceneState} {k : Nat}
    (hv : versionFiles st = versionFileNames k) :
    versionFileName (k + 1) ∉ (filesOf st).map Prod.fst := by
  intro hmem
  have hin : versionFileName (k + 1) ∈ versionFiles st := by
    rw [versionFiles_eq]
    exact List.mem_filter.2 ⟨hmem, matchesVersionFile_versionFileName _⟩
  rw [hv] at hin
  obtain ⟨i, hik, hie⟩ := mem_versionFileNames hin
  have := versionFileName_inj hie
  omega

theorem savePromptVersion_def (st : SceneState) (c note now : String) :
    savePromptVersion st c note now =
      (⟨some (writeFile (filesOf st)
          (versionFileName ((listPromptVersions st).length + 1)) c),
        some ⟨(match st.indexRec with
            | none => (⟨[], none⟩ : IndexRecord)
            | some r => r).versions
            ++ [⟨versionId ((listPromptVersions st).length + 1), now, note⟩],
          some (versionId ((listPromptVersions st).length + 1))⟩⟩,
       (listPromptVersions st).length + 1) := rfl

/-- One `savePromptVersion` step from a state whose version files are
exactly `v1.md .. vk.md`. -/
theorem savePromptVersion_step (st : SceneState) (c note now : String) (k : Nat)
    (hv : versionFiles st = versionFileNames k) :
    (savePromptVersion st c note now).2 = k + 1 ∧
    (savePromptVersion st c note now).1.dir
      = some (filesOf st ++ [(versionFileName (k + 1), c)]) ∧
    versionFiles (savePromptVersion st c note now).1 = versionFileNames (k + 1) ∧
    indexVersionIds (savePromptVersion st c note now).1
      = indexVersionIds st ++ [versionId (k + 1)] ∧
    indexCurrent (savePromptVersion st c note now).1 = some (versionId (k + 1)) := by
  have hnext : (listPromptVersions st).length + 1 = k + 1 := by
    rw [listPromptVersions_length, hv, length_versionFileNames]
  have hwf := writeFile_fresh (fresh_name hv) c
  refine ⟨?_, ?_, ?_, ?_, ?_⟩
  · rw [savePromptVersion_def]
    exact hnext
  · rw [savePromptVersion_def, hnext]
    dsimp only
    rw [hwf]
  · rw [versionFiles_eq, savePromptVersion_def, hnext]
    show ((writeFile (filesOf st) (versionFileName (k + 1)) c).map
      Prod.fst).filter matchesVersionFile = _
    rw [hwf, List.map_append, List.filter_append, ← versionFiles_eq, hv,
      versionFileNames_succ]
    congr 1
    simp [List.filter, matchesVersionFile_versionFileName]
  · rw [savePromptVersion_def, hnext]
    unfold indexVersionIds
    dsimp only
    cases st.indexRec
    · rfl
    · simp
  · rw [savePromptVersion_def, hnext]
    rfl

/-- `saveAll` preserves and advances the store invariant: version files
`v1.md .. vk.md`, index ids `v1 .. vk`, current version `vk`. -/
theorem saveAll_inv :
    ∀ (saves : List (String × String × String)) (st : SceneState) (k : Nat),
      versionFiles st = versionFileNames k →
      indexVersionIds st = versionIds k →
      (0 < k → indexCurrent st = some (versionId k)) →
      versionFiles (saveAll st saves) = versionFileNames (k + saves.length) ∧
      indexVersionIds (saveAll st saves) = versionIds (k + saves.length) ∧
      (0 < k + saves.length →
        indexCurrent (saveAll st saves) = some (versionId (k + saves.length))) := by
  intro saves
  induction saves with
  | nil => intro st k h1 h2 h3; exact ⟨h1, h2, h3⟩
  | cons a rest ih =>
    intro st k h1 h2 h3
    obtain ⟨-, -, hvf, hids, hcur⟩ := savePromptVersion_step st a.1 a.2.1 a.2.2 k h1
    have harith : k + (a :: rest).length = (k + 1) + rest.length := by
      simp [List.length_cons]
      omega
    rw [harith]
    have hids' : indexVersionIds (savePromptVersion st a.1 a.2.1 a.2.2).1
        = versionIds (k + 1) := by
      rw [hids, h2, versionIds_succ]
    exact ih (savePromptVersion st a.1 a.2.1 a.2.2).1 (k + 1) hvf hids'
      (fun _ => hcur)

end Storage

/-! ## Claim theorems: the prompt version store -/

/-- C7: from a scene directory with no version files and no index record,
saving `N` times yields exactly the version files `v1.md .. vN.md`, index
version ids `v1 .. vN` (a list of length `N`), and `current_version = "vN"`. -/
theorem version_numbering_from_empty :
    ∀ (saves : List (String × String × String)) (st : Storage.SceneState),
      Storage.versionFiles st = [] → st.indexRec = none →
      Storage.versionFiles (Storage.saveAll st saves)
        = Storage.versionFileNames saves.length ∧
      Storage.indexVersionIds (Storage.saveAll st saves)
        = Storage.versionIds saves.length ∧
      (Storage.indexVersionIds (Storage.saveAll st saves)).length = saves.length ∧
      (0 < saves.length →
        Storage.indexCurrent (Storage.saveAll st saves)
          = some (Storage.versionId saves.length)) := by
  intro saves st h1 h2
  have h2' : Storage.indexVersionIds st = Storage.versionIds 0 := by
    unfold Storage.indexVersionIds
    rw [h2]
    rfl
  obtain ⟨a, b, c⟩ := Storage.saveAll_inv saves st 0 (by rw [h1]; rfl) h2'
    (fun h => absurd h (lt_irrefl 0))
  rw [Nat.zero_add] at a b c
  refine ⟨a, b, ?_, c⟩
  rw [b]
  unfold Storage.versionIds
  rw [List.length_map, List.length_range]

/-- C7 witness: three saves into a fresh scene (whose directory holds only a
non-version file). -/
theorem version_numbering_from_empty_witness :
    Storage.versionFiles ⟨some [("default.md", "d")], none⟩ = [] ∧
    (Storage.SceneState.mk (some [("default.md", "d")]) none).indexRec = none ∧
    (Storage.versionFiles (Storage.saveAll ⟨some [("default.md", "d")], none⟩
        [("c1", "n1", "t1"), ("c2", "n2", "t2"), ("c3", "n3", "t3")])
      = Storage.versionFileNames 3 ∧
     Storage.indexVersionIds (Storage.saveAll ⟨some [("default.md", "d")], none⟩
        [("c1", "n1", "t1"), ("c2", "n2", "t2"), ("c3", "n3", "t3")])
      = Storage.versionIds 3 ∧
     (Storage.indexVersionIds (Storage.saveAll ⟨some [("default.md", "d")], none⟩
        [("c1", "n1", "t1"), ("c2", "n2", "t2"), ("c3", "n3", "t3")])).length = 3 ∧
     (0 < 3 →
       Storage.indexCurrent (Storage.saveAll ⟨some [("default.md", "d")], none⟩
          [("c1", "n1", "t1"), ("c2", "n2", "t2"), ("c3", "n3", "t3")])
        = some (Storage.versionId 3))) :=
  ⟨by decide, rfl,
    version_numbering_from_empty
      [("c1", "n1", "t1"), ("c2", "n2", "t2"), ("c3", "n3", "t3")]
      ⟨some [("default.md", "d")], none⟩ (by decide) rfl⟩

/-- C8, counterexample.  With nine versions `v1.md .. v9.md` already present
and no `default.md`, saving writes `v10.md`, but `getPromptByScene` resolves
the LEXICOGRAPHICALLY last `v*.md`, which is `v9.md` (`"v10.md" < "v9.md"`
in code-unit order), so the content read back is the stale `o9`, not the
just-saved content. -/
theorem save_get_stale_counterexample :
    "default.md" ∉ ([("v1.md", "o1"), ("v2.md", "o2"), ("v3.md", "o3"), ("v4.md", "o4"),
      ("v5.md", "o5"), ("v6.md", "o6"), ("v7.md", "o7"), ("v8.md", "o8"),
      ("v9.md", "o9")].map Prod.fst) ∧
    (Storage.savePromptVersion ⟨some [("v1.md", "o1"), ("v2.md", "o2"), ("v3.md", "o3"),
      ("v4.md", "o4"), ("v5.md", "o5"), ("v6.md", "o6"), ("v7.md", "o7"), ("v8.md", "o8"),
      ("v9.md", "o9")], none⟩ "new content" "" "t").2 = 10 ∧
    Storage.readFile (Storage.filesOf (Storage.savePromptVersion ⟨some [("v1.md", "o1"),
      ("v2.md", "o2"), ("v3.md", "o3"), ("v4.md", "o4"), ("v5.md", "o5"), ("v6.md", "o6"),
      ("v7.md", "o7"), ("v8.md", "o8"), ("v9.md", "o9")], none⟩
      "new content" "" "t").1) "v10.md" = some "new content" ∧
    Storage.getPromptByScene (Storage.savePromptVersion ⟨some [("v1.md", "o1"),
      ("v2.md", "o2"), ("v3.md", "o3"), ("v4.md", "o4"), ("v5.md", "o5"), ("v6.md", "o6"),
      ("v7.md", "o7"), ("v8.md", "o8"), ("v9.md", "o9")], none⟩
      "new content" "" "t").1 none = .ok "v9.md" ∧
    Storage.readFile (Storage.filesOf (Storage.savePromptVersion ⟨some [("v1.md", "o1"),
      ("v2.md", "o2"), ("v3.md", "o3"), ("v4.md", "o4"), ("v5.md", "o5"), ("v6.md", "o6"),
      ("v7.md", "o7"), ("v8.md", "o8"), ("v9.md", "o9")], none⟩
      "new content" "" "t").1) "v9.md" = some "o9" ∧
    ("o9" : String) ≠ "new content" :=
  ⟨by decide, by decide, by decide, by rfl, by decide, by decide⟩

/-- C8, amended: when the scene directory has no `default.md` and its
version files are exactly `v1.md .. vk.md` with `k ≤ 8` (so that the new
version number stays single-digit and the lexicographic order agrees with
the numeric one), `savePromptVersion` writes `v<k+1>.md` and a subsequent
`getPromptByScene` with no version argument resolves exactly that file, so
the content read back is the content just saved.  (Beyond nine versions the
lexicographically-last rule picks `v9.md` over `v10.md`, as the
counterexample shows.) -/
theorem save_then_get_returns_latest (st : Storage.SceneState)
    (c note now : String) (k : Nat)
    (hk : k ≤ 8)
    (hv : Storage.versionFiles st = Storage.versionFileNames k)
    (hd : "default.md" ∉ (Storage.filesOf st).map Prod.fst) :
    (Storage.savePromptVersion st c note now).2 = k + 1 ∧
    Storage.getPromptByScene (Storage.savePromptVersion st c note now).1 none
      = .ok (Storage.versionFileName (k + 1)) ∧
    Storage.readFile (Storage.filesOf (Storage.savePromptVersion st c note now).1)
      (Storage.versionFileName (k + 1)) = some c := by
  obtain ⟨h2, hdir, hvf, -, -⟩ := Storage.savePromptVersion_step st c note now k hv
  have hfo : Storage.filesOf (Storage.savePromptVersion st c note now).1
      = Storage.filesOf st ++ [(Storage.versionFileName (k + 1), c)] := by
    unfold Storage.filesOf
    rw [hdir]
    rfl
  refine ⟨h2, ?_, ?_⟩
  · unfold Storage.getPromptByScene
    rw [hdir]
    dsimp only
    have hnd : (Storage.filesOf st ++ [(Storage.versionFileName (k + 1), c)]).any
        (fun p => p.1 == "default.md") = false := by
      rw [List.any_append]
      apply Bool.or_eq_false_iff.2
      constructor
      · rw [List.any_eq_false]
        intro p hp
        simp only [beq_iff_eq]
        intro he
        exact hd (List.mem_map.2 ⟨p, hp, he⟩)
      · simp [Storage.versionFileName_ne_default]
    rw [if_neg (by rw [hnd]; exact Bool.false_ne_true)]
    have hfilter := hvf
    rw [Storage.versionFiles_eq, hfo] at hfilter
    rw [hfilter]
    interval_cases k <;> rfl
  · rw [hfo]
    unfold Storage.readFile
    rw [List.find?_append]
    have h1 : (Storage.filesOf st).find?
        (fun p => p.1 == Storage.versionFileName (k + 1)) = none := by
      rw [List.find?_eq_none]
      intro p hp
      simp only [beq_iff_eq]
      intro he
      exact Storage.fresh_name hv (List.mem_map.2 ⟨p, hp, he⟩)
    rw [h1]
    simp [List.find?]

/-- C8 witness for the amended theorem: the first save into an empty
directory. -/
theorem save_then_get_returns_latest_witness :
    (0 : Nat) ≤ 8 ∧
    Storage.versionFiles ⟨some [], none⟩ = Storage.versionFileNames 0 ∧
    "default.md" ∉ (Storage.filesOf (⟨some [], none⟩ : Storage.SceneState)).map Prod.fst ∧
    ((Storage.savePromptVersion (⟨some [], none⟩ : Storage.SceneState)
        "hello" "n" "t").2 = 0 + 1 ∧
     Storage.getPromptByScene (Storage.savePromptVersion
        (⟨some [], none⟩ : Storage.SceneState) "hello" "n" "t").1 none
      = .ok (Storage.versionFileName (0 + 1)) ∧
     Storage.readFile (Storage.filesOf (Storage.savePromptVersion
        (⟨some [], none⟩ : Storage.SceneState) "hello" "n" "t").1)
       (Storage.versionFileName (0 + 1)) = some "hello") :=
  ⟨by omega, by decide, by decide,
    save_then_get_returns_latest ⟨some [], none⟩ "hello" "n" "t" 0
      (by omega) (by decide) (by decide)⟩

/-! ## Claim theorems: LLM clients and logger -/

theorem jsSlice_nil {α : Type} (s : Int) : jsSlice ([] : List α) s = [] := by
  unfold jsSlice
  split <;> simp

/-- C9: in every environment and over every network, `generateSummary` (and
the engine's `generate`) called with the unregistered model key `"gpt-9"`
fails with the configuration-error message listing the supported model keys,
and attempts zero HTTP requests: the lookup failure precedes both the
credential check and the `fetch`. -/
theorem unknown_model_fails_before_http :
    ∀ (env : String → Option String)
      (fetch : LlmClient.HttpRequest → Except String String)
      (data prompt : String),
      LlmClient.generateSummary env fetch data prompt "gpt-9"
        = (.error "不支持的模型: gpt-9. 支持的模型: qwen-max, deepseek-v3, doubao", 0) ∧
      EngineLlm.generate env fetch data prompt "gpt-9"
        = (.error "Unsupported model: gpt-9. Supported: qwen-max, deepseek-v3, doubao", 0) ∧
      includes "不支持的模型: gpt-9. 支持的模型: qwen-max, deepseek-v3, doubao" "qwen-max" = true ∧
      includes "不支持的模型: gpt-9. 支持的模型: qwen-max, deepseek-v3, doubao" "deepseek-v3" = true ∧
      includes "不支持的模型: gpt-9. 支持的模型: qwen-max, deepseek-v3, doubao" "doubao" = true ∧
      includes "Unsupported model: gpt-9. Supported: qwen-max, deepseek-v3, doubao" "qwen-max" = true ∧
      includes "Unsupported model: gpt-9. Supported: qwen-max, deepseek-v3, doubao" "deepseek-v3" = true ∧
      includes "Unsupported model: gpt-9. Supported: qwen-max, deepseek-v3, doubao" "doubao" = true := by
  intro env fetch data prompt
  exact ⟨rfl, rfl, by decide, by decide, by decide, by decide, by decide, by decide⟩

/-- C10: when the commands log directory is missing, or none of its files is
a `.jsonl` file, `getStats` returns all-zero statistics, for every command
filter, every `days` argument and every behaviour of the JSON parser. -/
theorem getStats_no_logs :
    ∀ (commandsDir : Option (List (String × String)))
      (parse : String → Option Logger.LogEntry)
      (command : Option String) (days : Int),
      (match commandsDir with
        | none => True
        | some files => files.filter (fun f => jsEndsWith f.1 ".jsonl") = []) →
      Logger.getStats commandsDir parse command days = ⟨0, 0, 0, 0⟩ := by
  intro dir parse command days h
  cases dir with
  | none => rfl
  | some files =>
    have h' : files.filter (fun f => jsEndsWith f.1 ".jsonl") = [] := h
    unfold Logger.getStats
    dsimp only
    rw [h', jsSlice_nil]
    cases command <;> rfl

/-- C10 witness: an existing directory holding one non-log file. -/
theorem getStats_no_logs_witness :
    (match (some [("readme.txt", "x")] : Option (List (String × String))) with
      | none => True
      | some files => files.filter (fun f => jsEndsWith f.1 ".jsonl") = []) ∧
    Logger.getStats (some [("readme.txt", "x")]) (fun _ => none) (some "detect") 7
      = ⟨0, 0, 0, 0⟩ :=
  ⟨by decide, getStats_no_logs (some [("readme.txt", "x")]) (fun _ => none)
    (some "detect") 7 (by decide)⟩
